import Mathlib

/-!
Verification of the krisp pipeline orchestration (`src/krisp/krisp.py`).

The development shallowly embeds the scheduling, parameter-derivation and
dispatch logic of `krisp.py`; components that live in external modules
(`kstream`, `intersectAmplicons`, `filterAlignments`) are modelled from the
specification and marked as such in their doc comments.
-/

namespace Krisp

/-! ### Job scheduler (`sortedKmersParallel`, `sortedKmerJob`) -/

/-- Per-job core allocation computed at the top of `sortedKmersParallel`:
`[1]*jobs` when `parallel < jobs`, otherwise `parallel//jobs` for each file
plus one extra core for the first `parallel % jobs` files. -/
def job_cores (jobs parallel : Nat) : List Nat :=
  if parallel < jobs then List.replicate jobs 1
  else (List.range jobs).map fun i => parallel / jobs + if i < parallel % jobs then 1 else 0

/-- The per-job sort-memory percentage: the source computes
`sortmem = f"{80//len(job_cores)}%"`, dividing by the length of `job_cores`. -/
def sortmemPercent (jobs parallel : Nat) : Nat :=
  80 / (job_cores jobs parallel).length

/-- One entry of the multiprocessing job queue: `some j` is a real extraction
job (identified by its index in the file list) and `none` is the `None`
end-of-work sentinel. -/
abbrev QueueItem := Option Nat

/-- The job queue as filled by `sortedKmersParallel`: one real job per input
file, then one sentinel per job (`for i in range(jobs): job_queue.put(None)`,
where `jobs = len(files)`). -/
def jobQueueInit (jobs : Nat) : List QueueItem :=
  (List.range jobs).map some ++ List.replicate jobs none

/-- Number of sentinels enqueued onto the shared job queue. -/
def sentinelsEnqueued (jobs : Nat) : Nat :=
  (jobQueueInit jobs).countP fun item => item.isNone

/-- Number of worker processes spawned by `sortedKmersParallel`
(`for i in range(parallel): p = multiprocessing.Process(...)`). -/
def workersSpawned (parallel : Nat) : Nat := parallel

/-- Status of one worker process running `sortedKmerJob`: still looping on the
queue, exited normally after a sentinel, or killed by an exception in a job. -/
inductive WorkerStatus
  | running
  | done
  | dead
deriving DecidableEq

structure SchedState where
  queue : List QueueItem
  workers : List WorkerStatus
deriving DecidableEq

/-- One `input_queue.get()` performed by worker `w` in `sortedKmerJob`: a
sentinel makes the worker leave its loop; a real job either succeeds (the
worker loops and gets again) or raises, killing the worker process.  On an
empty queue `get()` blocks, so the state does not change. -/
def schedStep (jobFails : Nat → Bool) (s : SchedState) (w : Nat) : SchedState :=
  match s.workers.getD w .done with
  | .running =>
    match s.queue with
    | [] => s
    | none :: rest => ⟨rest, s.workers.set w .done⟩
    | some j :: rest => ⟨rest, if jobFails j then s.workers.set w .dead else s.workers⟩
  | _ => s

/-- Run the scheduler model under a given interleaving: the schedule lists, in
order, which worker performs the next `get()`. -/
def runSched (jobFails : Nat → Bool) (s : SchedState) (sched : List Nat) : SchedState :=
  sched.foldl (schedStep jobFails) s

/-- Initial state of `sortedKmersParallel`: the filled queue and `parallel`
freshly spawned workers. -/
def initState (jobs parallel : Nat) : SchedState :=
  ⟨jobQueueInit jobs, List.replicate parallel .running⟩

/-- Every worker process has exited (normally or by a fatal error). -/
def allExited (s : SchedState) : Bool :=
  s.workers.all fun st => st != .running

/-- The parent's `for p in processes: p.join()` barrier: it returns (carrying
no value; worker exit codes are never inspected) once every worker has exited
under the given interleaving, and keeps blocking otherwise. -/
def joinAll (jobFails : Nat → Bool) (s : SchedState) (sched : List Nat) :
    Option SchedState :=
  let f := runSched jobFails s sched
  if allExited f then some f else none

/-- Where `main` stands after calling `sortedKmersParallel`. -/
inductive MainStage
  | blockedInJoin
  | merging
deriving DecidableEq

/-- What `main` does once `sortedKmersParallel` returns: it calls `mergeFiles`
unconditionally; no exit code or failure flag is read in between. -/
def mainAfterJoin (joined : Option SchedState) : MainStage :=
  match joined with
  | none => .blockedInJoin
  | some _ => .merging

/-- Failure oracle used for the concrete failing run: job 1 raises. -/
def failsJob1 : Nat → Bool := fun j => j == 1

/-! ### Basic scheduler lemmas -/

theorem schedStep_nil (jf : Nat → Bool) (ws : List WorkerStatus) (w : Nat) :
    schedStep jf ⟨[], ws⟩ w = ⟨[], ws⟩ := by
  unfold schedStep
  cases ws.getD w .done <;> rfl

theorem runSched_nil (jf : Nat → Bool) (ws : List WorkerStatus) (sched : List Nat) :
    runSched jf ⟨[], ws⟩ sched = ⟨[], ws⟩ := by
  induction sched with
  | nil => rfl
  | cons w rest ih => simpa [runSched, schedStep_nil] using ih

/-- Holds when no interleaving ever changes the state again: every worker
still marked running is blocked in `queue.get()` forever. -/
def stuckForever (jf : Nat → Bool) (s : SchedState) : Prop :=
  ∀ sched, runSched jf s sched = s

/-- Holds when the parent never gets past the `join` barrier, whatever the
interleaving. -/
def neverJoins (jf : Nat → Bool) (s : SchedState) : Prop :=
  ∀ sched, mainAfterJoin (joinAll jf s sched) = .blockedInJoin

/-- C1: the code enqueues one sentinel per input file (`jobs = len(files)`),
not one per spawned worker (`parallel`), so for 2 files and a parallelism
budget of 5 only 2 sentinels are put on the queue for 5 workers; after the two
real jobs and the two sentinels are drained, the reached state is a fixpoint
of the scheduler under every interleaving: three workers stay blocked in
`queue.get()` forever and the `join` barrier never returns. -/
theorem sentinel_mismatch_deadlock :
    sentinelsEnqueued 2 = 2 ∧ workersSpawned 5 = 5 ∧
    sentinelsEnqueued 2 ≠ workersSpawned 5 ∧
    runSched (fun _ => false) (initState 2 5) [0, 1, 0, 1] =
      ⟨[], [.done, .done, .running, .running, .running]⟩ ∧
    stuckForever (fun _ => false)
      ⟨[], [.done, .done, .running, .running, .running]⟩ ∧
    neverJoins (fun _ => false)
      (runSched (fun _ => false) (initState 2 5) [0, 1, 0, 1]) := by
  refine ⟨rfl, rfl, by decide, by decide, fun sched => runSched_nil _ _ _, fun sched => ?_⟩
  have h : runSched (fun _ => false) (initState 2 5) [0, 1, 0, 1] =
      ⟨[], [.done, .done, .running, .running, .running]⟩ := by decide
  rw [h, joinAll, runSched_nil]
  decide

/-- C3 counterexample: with two files, two workers, and job 1 raising, every
worker still exits (worker 0 normally, worker 1 by the fatal error), the
`join` barrier returns, and `main` proceeds straight to the merge stage: the
job failure is not propagated and does not abort the run before merge-join,
contradicting the claim as stated. -/
theorem failure_not_propagated :
    failsJob1 1 = true ∧
    (runSched failsJob1 (initState 2 2) [0, 1, 0]).workers = [.done, .dead] ∧
    mainAfterJoin (joinAll failsJob1 (initState 2 2) [0, 1, 0]) = .merging := by
  decide

/-- C3 (amended): the scheduler blocks the caller until every worker process
has exited — `main` reaches the merge stage exactly when all workers are no
longer running — but job failures are never propagated: in the concrete run
where job 1 raises, the surviving worker keeps draining the queue (it is not
abandoned), all workers exit, and `main` proceeds to merging regardless of the
dead worker. -/
theorem barrier_but_no_propagation (jf : Nat → Bool) (s : SchedState) (sched : List Nat) :
    (mainAfterJoin (joinAll jf s sched) = .merging ↔
      allExited (runSched jf s sched) = true) ∧
    (mainAfterJoin (joinAll jf s sched) = .blockedInJoin ↔
      allExited (runSched jf s sched) = false) ∧
    (runSched failsJob1 (initState 2 2) [0, 1, 0]).workers = [.done, .dead] ∧
    mainAfterJoin (joinAll failsJob1 (initState 2 2) [0, 1, 0]) = .merging := by
  refine ⟨?_, ?_, by decide, by decide⟩ <;>
  · unfold joinAll mainAfterJoin
    by_cases h : allExited (runSched jf s sched) = true <;> simp [h]

/-- C3 amended witness: the barrier/no-propagation theorem applied at the
concrete failing run. -/
theorem barrier_but_no_propagation_witness :
    mainAfterJoin (joinAll failsJob1 (initState 2 2) [0, 1, 0]) = .merging :=
  (barrier_but_no_propagation failsJob1 (initState 2 2) [0, 1, 0]).2.2.2

/-! ### Core-allocation and sort-memory lemmas -/

theorem job_cores_length (N P : Nat) : (job_cores N P).length = N := by
  unfold job_cores
  by_cases h : P < N <;> simp [h]

theorem job_cores_getD (N P i : Nat) (h : i < N) :
    (job_cores N P).getD i 0 =
      if P < N then 1 else P / N + if i < P % N then 1 else 0 := by
  unfold job_cores
  by_cases hc : P < N <;>
    simp [hc, List.getD_eq_getElem?_getD, List.getElem?_replicate, h,
      List.getElem?_map, List.getElem?_range]

theorem sum_ite_lt_range (m N : Nat) :
    (∑ i in Finset.range N, if i < m then 1 else 0) = min m N := by
  induction N with
  | zero => simp
  | succ n ih =>
    rw [Finset.sum_range_succ, ih]
    by_cases h : n < m <;> simp [h] <;> omega

theorem job_cores_total_sum (N P : Nat) (h : N ≤ P) :
    (∑ i in Finset.range N, (job_cores N P).getD i 0) = P ∨ N = 0 := by
  rcases Nat.eq_zero_or_pos N with h0 | h0
  · exact Or.inr h0
  left
  have hmod : P % N < N := Nat.mod_lt _ h0
  have hcong : (∑ i in Finset.range N, (job_cores N P).getD i 0) =
      ∑ i in Finset.range N, (P / N + if i < P % N then 1 else 0) := by
    refine Finset.sum_congr rfl fun i hi => ?_
    rw [job_cores_getD N P i (Finset.mem_range.mp hi), if_neg (Nat.not_lt.mpr h)]
  rw [hcong, Finset.sum_add_distrib, Finset.sum_const, Finset.card_range,
    sum_ite_lt_range, smul_eq_mul, Nat.min_eq_left (Nat.le_of_lt hmod)]
  exact Nat.div_add_mod P N

/-- C2: per-job core allocation of `sortedKmersParallel`: with budget `P` and
`N` files, if `P < N` every file gets exactly 1 core; if `P ≥ N` file `i` gets
`P / N` cores plus one extra for the first `P % N` files; the cores of any set
of concurrently active jobs (at most `P` jobs, one per worker) sum to at most
`P`; concretely `N = 5, P = 2` gives every file 1 core and `N = 2, P = 5`
splits the cores as 3 and 2. -/
theorem job_cores_allocation (N P : Nat) :
    (P < N → job_cores N P = List.replicate N 1) ∧
    (N ≤ P → job_cores N P =
      (List.range N).map fun i => P / N + if i < P % N then 1 else 0) ∧
    (∀ S : Finset Nat, (∀ i ∈ S, i < N) → S.card ≤ P →
      (∑ i in S, (job_cores N P).getD i 0) ≤ P) ∧
    job_cores 5 2 = [1, 1, 1, 1, 1] ∧
    job_cores 2 5 = [3, 2] := by
  refine ⟨fun h => by simp [job_cores, h], fun h => by simp [job_cores, Nat.not_lt.mpr h],
    fun S hS hcard => ?_, by decide, by decide⟩
  by_cases hc : P < N
  · have hone : (∑ i in S, (job_cores N P).getD i 0) = ∑ _i in S, 1 := by
      refine Finset.sum_congr rfl fun i hi => ?_
      rw [job_cores_getD N P i (hS i hi), if_pos hc]
    rw [hone, Finset.sum_const, smul_eq_mul, Nat.mul_one]
    exact hcard
  · have hsub : S ⊆ Finset.range N := fun i hi => Finset.mem_range.mpr (hS i hi)
    have hle : (∑ i in S, (job_cores N P).getD i 0) ≤
        ∑ i in Finset.range N, (job_cores N P).getD i 0 :=
      Finset.sum_le_sum_of_subset hsub
    rcases job_cores_total_sum N P (Nat.not_lt.mp hc) with htot | h0
    · rw [htot] at hle
      exact hle
    · subst h0
      have : S = ∅ := Finset.subset_empty.mp (by simpa using hsub)
      simp [this]

/-- C2 witness: the allocation theorem applied at the spec's own examples
`N = 5, P = 2` and `N = 2, P = 5`. -/
theorem job_cores_allocation_witness :
    job_cores 5 2 = [1, 1, 1, 1, 1] ∧
    (∑ i in ({0, 1} : Finset Nat), (job_cores 2 5).getD i 0) ≤ 5 :=
  ⟨(job_cores_allocation 5 2).2.2.2.1,
    (job_cores_allocation 2 5).2.2.1 {0, 1} (by decide) (by decide)⟩

/-- C4 counterexample: for `N = 5` files and budget `P = 2` the number of
concurrently active jobs is `min P N = 2`, so the claimed per-job ceiling is
`80 / 2 = 40`, but the source divides by `len(job_cores) = N` and passes
`80 // 5 = 16` percent to every job: the per-job budget does not equal
80% divided by the number of concurrently active jobs. -/
theorem sortmem_not_eighty_over_active :
    sortmemPercent 5 2 = 16 ∧ min 2 5 = 2 ∧ 80 / min 2 5 = 40 ∧
    sortmemPercent 5 2 ≠ 80 / min 2 5 := by
  decide

/-- C4 (amended): the per-job sort-memory ceiling equals `80 // N` percent
where `N` is the number of input files (the length of `job_cores`), not the
number of concurrently active jobs; since at most `min P N ≤ N` jobs are ever
active at once, the active budgets still sum to at most the fixed 80%
system-wide ceiling. -/
theorem sortmem_amended (N P k : Nat) (hk : k ≤ min P N) :
    sortmemPercent N P = 80 / N ∧ k * sortmemPercent N P ≤ 80 := by
  have hlen : sortmemPercent N P = 80 / N := by
    rw [sortmemPercent, job_cores_length]
  refine ⟨hlen, ?_⟩
  rw [hlen]
  calc k * (80 / N) ≤ N * (80 / N) :=
        Nat.mul_le_mul_right _ (le_trans hk (Nat.min_le_right _ _))
    _ ≤ 80 := Nat.mul_div_le 80 N

/-- C4 amended witness: at `N = 5, P = 2` with both workers busy, each job
gets 16% and the two active budgets sum to 32% ≤ 80%. -/
theorem sortmem_amended_witness :
    sortmemPercent 5 2 = 80 / 5 ∧ 2 * sortmemPercent 5 2 ≤ 80 :=
  sortmem_amended 5 2 2 (by decide)

/-! ### Parameter derivation and filter dispatch in `main` -/

/-- The amplicon parameters as they stand after the derivation block of
`main`. -/
structure AmpliconParams where
  amplicon : Int
  conserved_left : Int
  conserved_right : Int
  diagnostic : Int
deriving DecidableEq

/-- Parameter derivation in `main`: mirrors the `if args.amplicon is not
None: ... elif args.diagnostic is not None: ... else: error` chain.  `//` in
the source is Python floor division, embedded as `Int.fdiv`.  The result is
`none` exactly where the source prints "Could not deduce input parameters" and
exits before any extraction. -/
def deriveParams (amplicon diagnostic conserved conserved_left conserved_right : Option Int) :
    Option AmpliconParams :=
  match amplicon with
  | some a =>
    match diagnostic with
    | some d => some ⟨a, (a - d).fdiv 2, (a - d).fdiv 2, d⟩
    | none =>
      match conserved with
      | some c => some ⟨a, c, c, a - 2 * c⟩
      | none =>
        match conserved_left, conserved_right with
        | some cl, some cr => some ⟨a, cl, cr, a - cl - cr⟩
        | _, _ => none
  | none =>
    match diagnostic with
    | some d =>
      match conserved with
      | some c => some ⟨d + 2 * c, c, c, d⟩
      | none =>
        match conserved_left, conserved_right with
        | some cl, some cr => some ⟨d + cl + cr, cl, cr, d⟩
        | _, _ => none
    | none => none

/-- After a successful derivation `main` proceeds unconditionally to k-mer
extraction (`sortedKmersSerial` / `sortedKmersParallel`); the only early exits
of `main` before extraction are the `none` branches of `deriveParams`. -/
def extractionLaunched (a d c cl cr : Option Int) : Bool :=
  (deriveParams a d c cl cr).isSome

/-- C5 counterexample: the inconsistent configuration `--amplicon 10
--conserved 7` (two conserved regions of 7 cannot fit in an amplicon of 10;
the derived diagnostic length is `-4`, non-positive) is not rejected: the
derivation succeeds and extraction is launched, contradicting the claim that
every inconsistent or non-positive configuration is rejected before any k-mer
extraction begins. -/
theorem invalid_config_not_rejected :
    deriveParams (some 10) none (some 7) none none = some ⟨10, 7, 7, -4⟩ ∧
    ((10 : Int) < 2 * 7) ∧
    (⟨10, 7, 7, -4⟩ : AmpliconParams).diagnostic < 0 ∧
    extractionLaunched (some 10) none (some 7) none none = true := by
  decide

/-- C5 (amended): `main` rejects a run before extraction exactly when the
supplied parameters are insufficient to deduce the amplicon/conserved/
diagnostic triple (no branch of the derivation chain applies); no consistency
or positivity check is performed, so deducible but inconsistent or
non-positive configurations still launch extraction. -/
theorem rejection_iff_underdetermined (a d c cl cr : Option Int) :
    extractionLaunched a d c cl cr = false ↔
      ((a = none ∧ d = none) ∨
       (a ≠ none ∧ d = none ∧ c = none ∧ (cl = none ∨ cr = none)) ∨
       (a = none ∧ d ≠ none ∧ c = none ∧ (cl = none ∨ cr = none))) := by
  cases a <;> cases d <;> cases c <;> cases cl <;> cases cr <;>
    simp [extractionLaunched, deriveParams]

/-- C5 amended witness: with no parameters supplied at all the run is rejected
before extraction. -/
theorem rejection_iff_underdetermined_witness :
    extractionLaunched none none none none none = false :=
  (rejection_iff_underdetermined none none none none none).mpr (Or.inl ⟨rfl, rfl⟩)

/-- C6 counterexample: for `--amplicon 11 --diagnostic 4` the source sets both
conserved lengths to `(11 - 4) // 2 = 3` and leaves the amplicon at 11, so
conserved-left + diagnostic + conserved-right is `3 + 4 + 3 = 10 ≠ 11`. -/
theorem amplicon_sum_mismatch_odd :
    deriveParams (some 11) (some 4) none none none = some ⟨11, 3, 3, 4⟩ ∧
    (3 : Int) + 4 + 3 ≠ 11 := by
  decide

/-- C6 (amended): after derivation, conserved-left + diagnostic +
conserved-right equals the amplicon length minus `(amplicon - diagnostic) mod
2` when both amplicon and diagnostic were supplied (so the identity fails by
exactly 1 when their difference is odd), and equals the amplicon length in
every other derivation branch. -/
theorem amplicon_sum_after_derivation
    (a d c cl cr : Option Int) (p : AmpliconParams)
    (h : deriveParams a d c cl cr = some p) :
    p.conserved_left + p.diagnostic + p.conserved_right =
      p.amplicon -
        (match a, d with
         | some a0, some d0 => (a0 - d0).fmod 2
         | _, _ => 0) := by
  cases a with
  | some a0 =>
    cases d with
    | some d0 =>
      simp only [deriveParams, Option.some.injEq] at h
      subst h
      have hfd := Int.fmod_add_fdiv (a0 - d0) 2
      simp only
      omega
    | none =>
      cases c with
      | some c0 =>
        simp only [deriveParams, Option.some.injEq] at h
        subst h
        simp only
        ring
      | none =>
        cases cl <;> cases cr <;>
          first
          | (simp only [deriveParams, Option.some.injEq] at h; subst h; simp only; ring)
          | exact absurd h (by simp [deriveParams])
  | none =>
    cases d with
    | some d0 =>
      cases c with
      | some c0 =>
        simp only [deriveParams, Option.some.injEq] at h
        subst h
        simp only
        ring
      | none =>
        cases cl <;> cases cr <;>
          first
          | (simp only [deriveParams, Option.some.injEq] at h; subst h; simp only; ring)
          | exact absurd h (by simp [deriveParams])
    | none => exact absurd h (by simp [deriveParams])

/-- C6 amended witness: the amended identity applied at the odd case
`--amplicon 11 --diagnostic 4`: `3 + 4 + 3 = 11 - 1`. -/
theorem amplicon_sum_after_derivation_witness :
    (3 : Int) + 4 + 3 = 11 - (11 - 4 : Int).fmod 2 := by
  have h := amplicon_sum_after_derivation (some 11) (some 4) none none none
    ⟨11, 3, 3, 4⟩ (by decide)
  exact h

/-! ### Diagnostic-filter dispatch in `main` -/

/-- The guard `main` evaluates after the merge: `args.amplicon >
args.conserved_left + args.conserved_right`. -/
def filterStageApplied (p : AmpliconParams) : Bool :=
  p.conserved_left + p.conserved_right < p.amplicon

/-- Width of the diagnostic middle of each extracted window: the window has
length `amplicon` and is split by kstream at `[conserved_left,
-conserved_right]`, leaving `amplicon - conserved_left - conserved_right`
bases in the middle (modelled from the spec for the external `kstream`
split). -/
def diagnosticWidth (p : AmpliconParams) : Int :=
  p.amplicon - p.conserved_left - p.conserved_right

/-- What `main` hands to the renderer: the filtered file when the guard holds,
otherwise the merged file untouched. -/
def resultForRenderer (p : AmpliconParams) (merged : List Nat)
    (filterFn : List Nat → List Nat) : List Nat :=
  if filterStageApplied p then filterFn merged else merged

/-- C7: the diagnostic filter stage runs if and only if the amplicon length
strictly exceeds the sum of the conserved-region lengths, i.e. exactly when
the diagnostic middle is non-empty; when the conserved regions consume the
whole amplicon, the merged loci are passed through to the renderer
unfiltered. -/
theorem filter_iff_diagnostic_nonempty (p : AmpliconParams) (merged : List Nat)
    (filterFn : List Nat → List Nat) :
    (filterStageApplied p = true ↔ p.conserved_left + p.conserved_right < p.amplicon) ∧
    (filterStageApplied p = true ↔ 0 < diagnosticWidth p) ∧
    (0 < diagnosticWidth p → resultForRenderer p merged filterFn = filterFn merged) ∧
    (diagnosticWidth p <= 0 → resultForRenderer p merged filterFn = merged) := by
  have hiff : filterStageApplied p = true ↔ 0 < diagnosticWidth p := by
    simp only [filterStageApplied, diagnosticWidth, decide_eq_true_eq]
    omega
  refine ⟨by simp [filterStageApplied], hiff, fun h => ?_, fun h => ?_⟩
  · rw [resultForRenderer, if_pos (hiff.mpr h)]
  · rw [resultForRenderer, if_neg ?_]
    intro hc
    exact absurd (hiff.mp hc) (by omega)

/-- C7 witness: with a 10-base amplicon whose conserved regions are 5 + 5, the
diagnostic middle is empty and the merged loci reach the renderer unfiltered
even through a discarding filter function. -/
theorem filter_iff_diagnostic_nonempty_witness :
    resultForRenderer ⟨10, 5, 5, 0⟩ [1, 2] (fun _ => []) = [1, 2] :=
  (filter_iff_diagnostic_nonempty ⟨10, 5, 5, 0⟩ [1, 2] (fun _ => [])).2.2.2 (by decide)

/-! ### K-mer extractor invocation (`extractSortedKmers`) -/

/-- The keyword arguments of the `kstream(...)` call built by
`extractSortedKmers`. -/
structure KstreamArgs where
  kmers : Int
  disallow : String
  complements : Bool
  omitsoft : Bool
  mapsoft : Bool
  split : List Int
  sortOn : Bool
  sortmem : String
  sortcols : List Nat
  sortnp : Nat
  parallel : Nat
deriving DecidableEq

/-- The kstream invocation of `extractSortedKmers`: when `omit` holds the call
passes `omitsoft=True` (and no `mapsoft`), otherwise `mapsoft=True` (and no
`omitsoft`); all remaining arguments coincide between the two branches. -/
def extractKstreamArgs (primer_left primer_right ampl_len : Int) (sortmem : String)
    (parallel : Nat) (omitFlag : Bool) : KstreamArgs :=
  if omitFlag then
    ⟨ampl_len, "Nn", true, true, false, [primer_left, -primer_right], true,
      sortmem, [0, 2], parallel, parallel⟩
  else
    ⟨ampl_len, "Nn", true, false, true, [primer_left, -primer_right], true,
      sortmem, [0, 2], parallel, parallel⟩

/-- Modelled from the spec: the soft-masking treatment inside the external
`kstream` dependency.  In omit mode every window overlapping a soft-masked
(lower-case) base is dropped entirely; in map mode soft-masked bases are
folded to upper case and the window is kept. -/
def applySoftMode (args : KstreamArgs) (windows : List (List Char)) :
    List (List Char) :=
  if args.omitsoft then windows.filter fun w => !w.any Char.isLower
  else if args.mapsoft then windows.map fun w => w.map Char.toUpper
  else windows

/-- C8: every invocation of the extractor is in exactly one of the two
mutually exclusive soft-masking modes (`omitsoft` and `mapsoft` are never
equal); in omit mode the surviving windows are exactly the input windows free
of soft-masked bases, and in map mode every window is kept (the output has the
same length) with its bases folded to upper case. -/
theorem soft_mode_exclusive (pl pr k : Int) (sm : String) (par : Nat) (omitFlag : Bool)
    (ws : List (List Char)) :
    ((extractKstreamArgs pl pr k sm par omitFlag).omitsoft !=
      (extractKstreamArgs pl pr k sm par omitFlag).mapsoft) = true ∧
    (omitFlag = true ->
      applySoftMode (extractKstreamArgs pl pr k sm par omitFlag) ws =
        ws.filter fun w => !w.any Char.isLower) ∧
    (omitFlag = false ->
      applySoftMode (extractKstreamArgs pl pr k sm par omitFlag) ws =
        ws.map fun w => w.map Char.toUpper) ∧
    (∀ w, w ∈ applySoftMode (extractKstreamArgs pl pr k sm par true) ws ->
      w.any Char.isLower = false ∧ w ∈ ws) ∧
    (applySoftMode (extractKstreamArgs pl pr k sm par false) ws).length = ws.length := by
  refine ⟨?_, fun h => ?_, fun h => ?_, fun w hw => ?_, ?_⟩
  · cases omitFlag <;> simp [extractKstreamArgs]
  · subst h; simp [extractKstreamArgs, applySoftMode]
  · subst h; simp [extractKstreamArgs, applySoftMode]
  · have hw' : w ∈ ws.filter fun w => !w.any Char.isLower := by
      simpa [extractKstreamArgs, applySoftMode] using hw
    have := List.mem_filter.mp hw'
    exact ⟨by simpa using this.2, this.1⟩
  · simp [extractKstreamArgs, applySoftMode]

/-- C8 witness: in omit mode a window containing the soft-masked base `a` is
dropped and the clean window survives. -/
theorem soft_mode_exclusive_witness :
    applySoftMode (extractKstreamArgs 1 1 3 "80%" 1 true) [['a'], ['G']] =
      [['a'], ['G']].filter fun w => !w.any Char.isLower :=
  (soft_mode_exclusive 1 1 3 "80%" 1 true [['a'], ['G']]).2.1 rfl

/-! ### Serial extraction path (`sortedKmersSerial` and the dispatch in `main`) -/

/-- One call of `extractSortedKmers` as issued by the serial or parallel
driver. -/
structure ExtractCall where
  fasta : String
  primer_left : Int
  primer_right : Int
  ampl_len : Int
  output : String
  sortmem : String
  parallel : Nat
deriving DecidableEq

/-- The calls made by `sortedKmersSerial`: one per `(file, output)` pair of the
`zip`, in list order (the loop body runs them strictly sequentially), each
with the full `"80%"` sort budget and 1 core. -/
def sortedKmersSerialCalls (files outputs : List String)
    (ampl_len primer_left primer_right : Int) : List ExtractCall :=
  (files.zip outputs).map fun fo =>
    ⟨fo.1, primer_left, primer_right, ampl_len, fo.2, "80%", 1⟩

/-- Which extraction driver `main` dispatches to. -/
inductive ExtractPath
  | serial
  | scheduled
deriving DecidableEq

/-- The default of the `--parallel` option in the argument parser. -/
def parallelDefault : Nat := 1

/-- The dispatch in `main`: the parallel scheduler only when
`args.parallel > 1`, otherwise the serial path. -/
def mainExtractPath (parallelArg : Nat) : ExtractPath :=
  if 1 < parallelArg then .scheduled else .serial

/-- The input files handed to either driver: the ingroup files followed by the
outgroup files (`input_files = args.files + args.outgroup`). -/
def mainInputFiles (files outgroup : List String) : List String :=
  files ++ outgroup

/-- C10: with `--parallel` at its default of 1, `main` takes the serial path;
the serial driver issues one extraction call per input file, ingroup files
first and then outgroup files, strictly in list order, and every call carries
the full `"80%"` sort-memory budget and exactly 1 core (not the divided
per-job budget of the parallel path). -/
theorem serial_path_default (files outgroup outputs : List String)
    (ampl pl pr : Int)
    (hlen : (mainInputFiles files outgroup).length = outputs.length) :
    mainExtractPath parallelDefault = .serial ∧
    (∀ c, c ∈ sortedKmersSerialCalls (mainInputFiles files outgroup) outputs ampl pl pr ->
      c.sortmem = "80%" ∧ c.parallel = 1) ∧
    (sortedKmersSerialCalls (mainInputFiles files outgroup) outputs ampl pl pr).map
      (fun c => c.fasta) = files ++ outgroup ∧
    (sortedKmersSerialCalls (mainInputFiles files outgroup) outputs ampl pl pr).map
      (fun c => c.output) = outputs := by
  refine ⟨rfl, fun c hc => ?_, ?_, ?_⟩
  · rcases List.mem_map.mp hc with ⟨fo, _, rfl⟩
    exact ⟨rfl, rfl⟩
  · have : ((mainInputFiles files outgroup).zip outputs).map Prod.fst =
        mainInputFiles files outgroup :=
      List.map_fst_zip _ _ (le_of_eq hlen)
    simpa [sortedKmersSerialCalls, List.map_map, Function.comp, mainInputFiles] using this
  · have : ((mainInputFiles files outgroup).zip outputs).map Prod.snd = outputs :=
      List.map_snd_zip _ _ (ge_of_eq hlen)
    simpa [sortedKmersSerialCalls, List.map_map, Function.comp] using this

/-- C10 witness: one ingroup and one outgroup file with two outputs — the
serial path is taken by default and the calls run over `a.fa` then `b.fa`. -/
theorem serial_path_default_witness :
    (sortedKmersSerialCalls (mainInputFiles ["a.fa"] ["b.fa"]) ["o1", "o2"] 10 3 3).map
      (fun c => c.fasta) = ["a.fa"] ++ ["b.fa"] :=
  (serial_path_default ["a.fa"] ["b.fa"] ["o1", "o2"] 10 3 3 rfl).2.2.1

/-! ### External sorter (modelled from the spec; the sorter lives in the
external `kstream` dependency) -/

/-- Modelled from the spec: one record of a SortedKmerFile.  The sort key is
`(left_flank, right_flank, diag, source_id)`; `position` stands for the rest
of the encoded line, which serves as the final tie-break so that the order on
whole records is antisymmetric (byte order on whole lines). -/
structure KmerRecord where
  left_flank : String
  right_flank : String
  diag : String
  source_id : Nat
  position : Nat
deriving DecidableEq

/-- The whole record viewed as a lexicographically ordered tuple, key fields
first. -/
def recTuple (r : KmerRecord) :
    String ×ₗ String ×ₗ String ×ₗ Nat ×ₗ Nat :=
  toLex (r.left_flank, toLex (r.right_flank, toLex (r.diag,
    toLex (r.source_id, r.position))))

/-- The sort key `(left_flank, right_flank, diag, source_id)` as a
lexicographically ordered tuple. -/
def keyTuple (r : KmerRecord) : String ×ₗ String ×ₗ String ×ₗ Nat :=
  toLex (r.left_flank, toLex (r.right_flank, toLex (r.diag, r.source_id)))

theorem recTuple_injective : Function.Injective recTuple := by
  intro a b h
  simp only [recTuple, toLex_inj, Prod.mk.injEq] at h
  obtain ⟨h1, h2, h3, h4, h5⟩ := h
  cases a
  cases b
  simp_all

instance : LinearOrder KmerRecord :=
  LinearOrder.lift' recTuple recTuple_injective

/-- Boolean comparison handed to the sorter. -/
def recLe (a b : KmerRecord) : Bool := decide (a ≤ b)

theorem recLe_trans : ∀ (a b c : KmerRecord),
    recLe a b → recLe b c → recLe a c := by
  simp only [recLe, decide_eq_true_eq]
  exact fun a b c => le_trans

theorem recLe_total : ∀ (a b : KmerRecord), recLe a b || recLe b a := by
  intro a b
  simp only [recLe, Bool.or_eq_true, decide_eq_true_eq]
  exact le_total a b

theorem recLe_antisymm : ∀ {a b : KmerRecord},
    recLe a b = true → recLe b a = true → a = b := by
  simp only [recLe, decide_eq_true_eq]
  exact fun h1 h2 => le_antisymm h1 h2

/-- Modelled from the spec: the sorter sorts each in-memory segment before
spilling it. -/
def sortSegment (l : List KmerRecord) : List KmerRecord :=
  l.mergeSort recLe

/-- Modelled from the spec: the completed sorted segments are combined by a
k-way merge. -/
def kwayMerge (runs : List (List KmerRecord)) : List KmerRecord :=
  runs.foldr (fun rs acc => rs.merge acc recLe) []

/-- Modelled from the spec: the external sorter as a whole — the worker count
and memory ceiling only determine how the record stream is cut into segments;
each segment is sorted and the sorted runs are k-way merged. -/
def externalSort (segments : List (List KmerRecord)) : List KmerRecord :=
  kwayMerge (segments.map sortSegment)

/-- The key order the spec requires on the sorter output. -/
def keyLE (a b : KmerRecord) : Prop := keyTuple a ≤ keyTuple b

theorem key_mono {a b : KmerRecord} (h : a ≤ b) : keyLE a b := by
  have h' : recTuple a ≤ recTuple b := h
  simp only [recTuple, Prod.Lex.le_iff] at h'
  simp only [keyLE, keyTuple, Prod.Lex.le_iff]
  rcases h' with h1 | ⟨e1, h2⟩
  · exact Or.inl h1
  refine Or.inr ⟨e1, ?_⟩
  rcases h2 with h2 | ⟨e2, h3⟩
  · exact Or.inl h2
  refine Or.inr ⟨e2, ?_⟩
  rcases h3 with h3 | ⟨e3, h4⟩
  · exact Or.inl h3
  refine Or.inr ⟨e3, ?_⟩
  rcases h4 with h4 | ⟨e4, _⟩
  · exact le_of_lt h4
  · exact le_of_eq e4

theorem kwayMerge_perm (runs : List (List KmerRecord)) :
    (kwayMerge runs).Perm runs.flatten := by
  induction runs with
  | nil => simp [kwayMerge]
  | cons rs rest ih =>
    simp only [kwayMerge, List.foldr, List.flatten_cons]
    exact (List.merge_perm_append recLe).trans (List.Perm.append_left rs ih)

theorem kwayMerge_sorted (runs : List (List KmerRecord))
    (h : ∀ rs, rs ∈ runs → rs.Pairwise fun a b => recLe a b) :
    (kwayMerge runs).Pairwise fun a b => recLe a b := by
  induction runs with
  | nil => simp [kwayMerge]
  | cons rs rest ih =>
    simp only [kwayMerge, List.foldr]
    exact List.sorted_merge recLe_trans recLe_total rs _
      (h rs (List.mem_cons_self rs rest))
      (ih fun r hr => h r (List.mem_cons_of_mem rs hr))

theorem map_sortSegment_join_perm (segs : List (List KmerRecord)) :
    ((segs.map sortSegment).flatten).Perm segs.flatten := by
  induction segs with
  | nil => rfl
  | cons sg rest ih =>
    simp only [List.map_cons, List.flatten_cons]
    exact (List.mergeSort_perm sg recLe).append ih

theorem externalSort_perm (segs : List (List KmerRecord)) :
    (externalSort segs).Perm segs.flatten :=
  (kwayMerge_perm _).trans (map_sortSegment_join_perm segs)

theorem externalSort_sorted (segs : List (List KmerRecord)) :
    (externalSort segs).Pairwise fun a b => recLe a b := by
  refine kwayMerge_sorted _ fun rs hrs => ?_
  rcases List.mem_map.mp hrs with ⟨sg, _, rfl⟩
  exact List.sorted_mergeSort recLe_trans recLe_total sg

theorem sorted_unique {l₁ l₂ : List KmerRecord} (p : l₁.Perm l₂)
    (s₁ : l₁.Pairwise fun a b => recLe a b)
    (s₂ : l₂.Pairwise fun a b => recLe a b) : l₁ = l₂ := by
  haveI : IsAntisymm KmerRecord fun a b => recLe a b :=
    ⟨fun _ _ h1 h2 => recLe_antisymm h1 h2⟩
  exact List.eq_of_perm_of_sorted p s₁ s₂

/-- C9: the sorted k-mer output is independent of the internal worker count —
any two ways of cutting the same record stream into segments (one segment per
worker or buffer spill) produce the identical final list after
segment-sorting and k-way merging; moreover the output is a permutation of
the input stream and is non-decreasing under the
`(left_flank, right_flank, diag, source_id)` key. -/
theorem sorted_output_independent_of_workers (l : List KmerRecord)
    (segs1 segs2 : List (List KmerRecord))
    (h1 : segs1.flatten = l) (h2 : segs2.flatten = l) :
    externalSort segs1 = externalSort segs2 ∧
    (externalSort segs1).Perm l ∧
    (externalSort segs1).Pairwise keyLE := by
  have p1 : (externalSort segs1).Perm l := h1 ▸ externalSort_perm segs1
  have p2 : (externalSort segs2).Perm l := h2 ▸ externalSort_perm segs2
  refine ⟨sorted_unique (p1.trans p2.symm) (externalSort_sorted _)
    (externalSort_sorted _), p1, ?_⟩
  exact (externalSort_sorted segs1).imp fun h => key_mono (of_decide_eq_true h)

/-- C9 witness: a two-record stream sorted with one worker (a single segment)
and with two workers (one segment each) yields the same output. -/
theorem sorted_output_independent_of_workers_witness :
    externalSort [[⟨"CC", "AA", "T", 0, 5⟩, ⟨"AA", "GG", "C", 1, 3⟩]] =
      externalSort [[⟨"CC", "AA", "T", 0, 5⟩], [⟨"AA", "GG", "C", 1, 3⟩]] :=
  (sorted_output_independent_of_workers
    [⟨"CC", "AA", "T", 0, 5⟩, ⟨"AA", "GG", "C", 1, 3⟩]
    [[⟨"CC", "AA", "T", 0, 5⟩, ⟨"AA", "GG", "C", 1, 3⟩]]
    [[⟨"CC", "AA", "T", 0, 5⟩], [⟨"AA", "GG", "C", 1, 3⟩]]
    rfl (by simp)).1

end Krisp
